import Mathlib

/-!
Verification of the CRUD HTTP service in src/api/main.py of the
api-deployment-demo repository.

The service state is a single relational table of users together with the
storage engine's id sequence (SQLAlchemy `Integer, primary_key=True` on
PostgreSQL, i.e. a SERIAL sequence that is bumped on every insert and never
rewound).  Each route handler of main.py is embedded as a pure function from
the database state (and, where the handler touches them, the metrics
registry, the environment, or the clock) to its response and the successor
state.  Machine strings are `String`/`List Char`; timestamps are `Nat`
tick values supplied by the caller, standing for `func.now()` /
`datetime.utcnow()`.
-/

/-- A row of the `users` table (class `User` in main.py):
id (integer primary key), name, email (unique), created_at
(server default `func.now()`). -/
structure UserRow where
  id : Nat
  name : String
  email : String
  created_at : Nat
deriving DecidableEq

/-- The persistent state: the `users` table in storage order together with
the primary-key sequence value the next insert will receive. -/
structure DB where
  users : List UserRow
  nextId : Nat
deriving DecidableEq

/-- The state after `Base.metadata.create_all`: an empty table; the SERIAL
sequence starts at 1. -/
def DB.init : DB := { users := [], nextId := 1 }

/-- An `HTTPException(status_code=..., detail=...)` raised by a handler. -/
structure HTTPError where
  status_code : Nat
  detail : String
deriving DecidableEq

/-- `db.query(User).filter(User.email == email).first()`. -/
def findByEmail (db : DB) (email : String) : Option UserRow :=
  db.users.find? (fun u => u.email == email)

/-- `db.query(User).filter(User.id == user_id).first()`. -/
def findById (db : DB) (uid : Nat) : Option UserRow :=
  db.users.find? (fun u => u.id == uid)

/-- `POST /users/` (`create_user` in main.py): reject with 400
"Email already registered" when a row with the same email exists, otherwise
insert a fresh row carrying the next sequence id and the server clock. -/
def create_user (db : DB) (name email : String) (now : Nat) :
    Except HTTPError UserRow × DB :=
  match findByEmail db email with
  | some _ => (Except.error ⟨400, "Email already registered"⟩, db)
  | none =>
    let u : UserRow := ⟨db.nextId, name, email, now⟩
    (Except.ok u, ⟨db.users ++ [u], db.nextId + 1⟩)

/-- `GET /users` (`get_users` in main.py):
`db.query(User).offset(skip).limit(limit).all()`, `skip` defaulting to 0 and
`limit` to 100 exactly as the handler's parameter defaults do. -/
def get_users (db : DB) (skip : Nat := 0) (limit : Nat := 100) : List UserRow :=
  (db.users.drop skip).take limit

/-- `GET /users/{user_id}` (`get_user` in main.py): the row, or 404
"User not found". -/
def get_user (db : DB) (uid : Nat) : Except HTTPError UserRow :=
  match findById db uid with
  | none => Except.error ⟨404, "User not found"⟩
  | some u => Except.ok u

/-- `DELETE /users/{user_id}` (`delete_user` in main.py): 404 when no row
matches, otherwise a hard delete of the row with that primary key and the
confirmation message. -/
def delete_user (db : DB) (uid : Nat) : Except HTTPError String × DB :=
  match findById db uid with
  | none => (Except.error ⟨404, "User not found"⟩, db)
  | some _ =>
    (Except.ok "User deleted successfully",
      ⟨db.users.filter (fun v => v.id != uid), db.nextId⟩)

/-- The process-local Prometheus registry: the two gauges of main.py.
(The counter and histogram are write-only side channels the claims do not
touch; gauges are the values `GET /metrics` rewrites.) -/
structure MetricsState where
  active_users_gauge : Int
  database_connections_gauge : Int
deriving DecidableEq

/-- Stand-in for `prometheus_client.generate_latest`: the plain-text
exposition of the registry. -/
def generate_latest (m : MetricsState) : String :=
  "active_users_total " ++ toString m.active_users_gauge ++ "\n" ++
    "database_connections_active " ++ toString m.database_connections_gauge ++ "\n"

/-- `GET /metrics` (`metrics` in main.py): sets `active_users_gauge` to
`db.query(User).count()`, sets `database_connections_gauge` to the literal 1,
then returns the exposition of the updated registry. -/
def metrics (db : DB) (m : MetricsState) : String × MetricsState :=
  let m1 : MetricsState := { m with active_users_gauge := (db.users.length : Int) }
  let m2 : MetricsState := { m1 with database_connections_gauge := 1 }
  (generate_latest m2, m2)

/-- An item of the hardcoded catalog of `GET /products`.  The decimal prices
(29.99 etc.) are embedded exactly as integer cents. -/
structure Product where
  id : Nat
  name : String
  priceCents : Nat
deriving DecidableEq

/-- `GET /products` (`get_products` in main.py): the handler reads nothing
from the database; it is passed the state only to express that the response
does not depend on it. -/
def get_products (_db : DB) : List Product :=
  [⟨1, "Product A", 2999⟩, ⟨2, "Product B", 4999⟩, ⟨3, "Product C", 1999⟩]

/-- One inbound request, as far as the database is concerned.  Reads are
included so that a trace can interleave them; they do not change the state. -/
inductive Op where
  | create (name email : String) (now : Nat)
  | list (skip limit : Nat)
  | get (uid : Nat)
  | delete (uid : Nat)
  | scrape
deriving DecidableEq

/-- The successor database state of one request. -/
def applyOp (db : DB) : Op → DB
  | Op.create name email now => (create_user db name email now).2
  | Op.delete uid => (delete_user db uid).2
  | _ => db

/-- The database state after a sequence of requests starting from `db`. -/
def runFrom (db : DB) (ops : List Op) : DB := ops.foldl applyOp db

/-- The database state after a sequence of requests against a fresh
deployment. -/
def run (ops : List Op) : DB := runFrom DB.init ops

/-- The ids handed out by the successful creations along a trace, in order. -/
def assignedIds (db : DB) : List Op → List Nat
  | [] => []
  | op :: ops =>
    (match op with
     | Op.create name email now =>
       match (create_user db name email now).1 with
       | Except.ok u => [u.id]
       | Except.error _ => []
     | _ => []) ++ assignedIds (applyOp db op) ops

/-! ### Startup configuration (module top level of main.py)

`os.getenv` yields `none` for an unset variable; Python's `if not s:` treats
both `None` and the empty string as missing. -/

/-- `os.getenv(key, default)`: the default is used only when the variable is
unset. -/
def getenvD (env : String → Option String) (key default_ : String) : String :=
  (env key).getD default_

/-- Lines 20-29 of main.py: take `DATABASE_URL` when it is set and non-empty,
otherwise assemble it from the `POSTGRES_*` parts, raising `ValueError` when
`POSTGRES_PASSWORD` is unset or empty. -/
def buildUrlFromParts (env : String → Option String) : Except String String :=
  let user := getenvD env "POSTGRES_USER" "postgres"
  match env "POSTGRES_PASSWORD" with
  | none => Except.error "POSTGRES_PASSWORD environment variable is required"
  | some pw =>
    if pw = "" then Except.error "POSTGRES_PASSWORD environment variable is required"
    else
      let host := getenvD env "POSTGRES_HOST" "localhost"
      let port := getenvD env "POSTGRES_PORT" "5432"
      let dbName := getenvD env "POSTGRES_DB" "api_db"
      Except.ok ("postgresql://" ++ user ++ ":" ++ pw ++ "@" ++ host ++ ":" ++ port ++
        "/" ++ dbName)

/-- The resolved `DATABASE_URL`. -/
def resolveDatabaseUrl (env : String → Option String) : Except String String :=
  match env "DATABASE_URL" with
  | some url => if url = "" then buildUrlFromParts env else Except.ok url
  | none => buildUrlFromParts env

/-- The outcome of importing the module: either the process is up and serving
with a resolved connection string, or it aborted with a non-zero exit carrying
the `ValueError` message, before any request is accepted. -/
inductive StartupResult where
  | started (databaseUrl : String)
  | failedExit (message : String)
deriving DecidableEq

/-- Process startup: the `DATABASE_URL` resolution runs at import time, so a
failure prevents the server from ever serving. -/
def startup (env : String → Option String) : StartupResult :=
  match resolveDatabaseUrl env with
  | Except.ok url => StartupResult.started url
  | Except.error msg => StartupResult.failedExit msg

/-! ### `GET /health` and the credential redaction

Line 129 of main.py:

  DATABASE_URL.replace(DATABASE_URL.split('@')[0].split('//')[1], "***:***")
    if '@' in DATABASE_URL else "configured"

The embeddings below reproduce Python `str.split` (first components) and
`str.replace` (global, left-to-right, non-overlapping) on `List Char`. -/

/-- Split off the first occurrence of `sep`: `some (before, after)` when `sep`
occurs, `none` otherwise.  (`sep` nonempty, as in both uses.) -/
def findSplit (sep : List Char) : List Char → Option (List Char × List Char)
  | [] => none
  | c :: cs =>
    if sep <+: (c :: cs) then some ([], (c :: cs).drop sep.length)
    else
      match findSplit sep cs with
      | some (pre, post) => some (c :: pre, post)
      | none => none

/-- `x.split(sep)[0]`. -/
def split0 (sep x : List Char) : List Char :=
  match findSplit sep x with
  | some p => p.1
  | none => x

/-- `x.split(sep)[1]`: `none` models the `IndexError` when `sep` does not
occur. -/
def split1 (sep x : List Char) : Option (List Char) :=
  (findSplit sep x).map (fun p => split0 sep p.2)

/-- Python `replace` for a nonempty pattern `s`, scanning left to right and
emitting `t` for each non-overlapping occurrence of `s`.  A positive `skip`
means the scanner is still inside an occurrence it has already replaced and
must pass over that many characters. -/
def replaceGo (s t : List Char) : Nat → List Char → List Char
  | _, [] => []
  | n + 1, _ :: cs => replaceGo s t n cs
  | 0, c :: cs =>
    if s <+: (c :: cs) then t ++ replaceGo s t (s.length - 1) cs
    else c :: replaceGo s t 0 cs

/-- `t` interleaved before, between and after the characters of `x`: what
Python `x.replace("", t)` produces. -/
def interleave (t : List Char) : List Char → List Char
  | [] => []
  | c :: cs => c :: (t ++ interleave t cs)

/-- Python `x.replace(s, t)`. -/
def pyReplace (s t x : List Char) : List Char :=
  if s = [] then t ++ interleave t x else replaceGo s t 0 x

/-- The replacement text `"***:***"`. -/
def maskChars : List Char := ['*', '*', '*', ':', '*', '*', '*']

/-- `DATABASE_URL.split('@')[0].split('//')[1]`: the segment the handler
treats as the `user:password` credential part (everything between the first
`//` and the first `@`, up to any further `//`). -/
def credSegment (url : List Char) : Option (List Char) :=
  if '@' ∈ url then split1 ['/', '/'] (split0 ['@'] url) else none

/-- The `database_url` field of the health response: the connection string
with the credential segment replaced by `***:***`; the literal `configured`
when the string has no `@`; `none` models the uncaught `IndexError` (the
request fails with a generic server error and no body is produced). -/
def redactedDatabaseUrl (url : List Char) : Option (List Char) :=
  if '@' ∈ url then
    match split1 ['/', '/'] (split0 ['@'] url) with
    | none => none
    | some e => some (pyReplace e maskChars url)
  else some ("configured".toList)

/-- The JSON body of `GET /health`. -/
structure HealthResponse where
  status : String
  timestamp : Nat
  environment : String
  deployment : String
  database_url : List Char
deriving DecidableEq

/-- Python truthiness of an optional environment value. -/
def pyTruthy : Option String → Bool
  | none => false
  | some s => s != ""

/-- `GET /health` (`health_check` in main.py): environment classification
from `KUBERNETES_SERVICE_HOST`, `API_ENV`, or a localhost-looking connection
string, and the redacted connection string. -/
def health_check (kube apiEnv : Option String) (url : List Char) (now : Nat) :
    Option HealthResponse :=
  let ed : String × String :=
    if pyTruthy kube then ("kubernetes", "k8s")
    else if apiEnv = some "staging" then ("staging", "docker-compose")
    else if ("localhost".toList <:+: url) ∨ ("127.0.0.1".toList <:+: url) then
      ("local", "development")
    else ("production", "unknown")
  match redactedDatabaseUrl url with
  | none => none
  | some d => some ⟨"healthy", now, ed.1, ed.2, d⟩

/-! ### Storage invariants -/

/-- Every id in the table is below the sequence value. -/
def idsBelow (db : DB) : Prop := ∀ u ∈ db.users, u.id < db.nextId

/-- Primary-key uniqueness. -/
def idsNodup (db : DB) : Prop := (db.users.map (fun u => u.id)).Nodup

/-- The unique constraint on `email`. -/
def emailsNodup (db : DB) : Prop := (db.users.map (fun u => u.email)).Nodup

/-- The storage invariant every reachable state satisfies. -/
def DBinv (db : DB) : Prop := idsBelow db ∧ idsNodup db ∧ emailsNodup db

lemma create_user_of_found {db : DB} {name email : String} {now : Nat} {u : UserRow}
    (h : findByEmail db email = some u) :
    create_user db name email now = (Except.error ⟨400, "Email already registered"⟩, db) := by
  simp [create_user, h]

lemma create_user_of_fresh {db : DB} {name email : String} {now : Nat}
    (h : findByEmail db email = none) :
    create_user db name email now =
      (Except.ok ⟨db.nextId, name, email, now⟩,
        ⟨db.users ++ [⟨db.nextId, name, email, now⟩], db.nextId + 1⟩) := by
  simp [create_user, h]

lemma delete_user_of_missing {db : DB} {uid : Nat} (h : findById db uid = none) :
    delete_user db uid = (Except.error ⟨404, "User not found"⟩, db) := by
  simp [delete_user, h]

lemma delete_user_of_found {db : DB} {uid : Nat} {u : UserRow} (h : findById db uid = some u) :
    delete_user db uid =
      (Except.ok "User deleted successfully",
        ⟨db.users.filter (fun v => v.id != uid), db.nextId⟩) := by
  simp [delete_user, h]

lemma runFrom_nil (db : DB) : runFrom db [] = db := rfl

lemma runFrom_cons (db : DB) (op : Op) (ops : List Op) :
    runFrom db (op :: ops) = runFrom (applyOp db op) ops := rfl

lemma idsBelow_init : idsBelow DB.init := by
  intro u hu
  simp [DB.init] at hu

lemma idsBelow_applyOp {db : DB} (op : Op) (h : idsBelow db) : idsBelow (applyOp db op) := by
  cases op with
  | create name email now =>
    simp only [applyOp]
    cases hfind : findByEmail db email with
    | some v => rw [create_user_of_found hfind]; exact h
    | none =>
      rw [create_user_of_fresh hfind]
      intro u hu
      rcases List.mem_append.mp hu with hl | hr
      · exact Nat.lt_succ_of_lt (h u hl)
      · rcases List.mem_singleton.mp hr with rfl
        exact Nat.lt_succ_self _
  | delete uid =>
    simp only [applyOp]
    cases hfind : findById db uid with
    | none => rw [delete_user_of_missing hfind]; exact h
    | some v =>
      rw [delete_user_of_found hfind]
      intro u hu
      exact h u (List.mem_of_mem_filter hu)
  | list skip limit => exact h
  | get uid => exact h
  | scrape => exact h

lemma nextId_le_applyOp (db : DB) (op : Op) : db.nextId ≤ (applyOp db op).nextId := by
  cases op with
  | create name email now =>
    simp only [applyOp]
    cases hfind : findByEmail db email with
    | some v => rw [create_user_of_found hfind]
    | none => rw [create_user_of_fresh hfind]; exact Nat.le_succ _
  | delete uid =>
    simp only [applyOp]
    cases hfind : findById db uid with
    | none => rw [delete_user_of_missing hfind]
    | some v => rw [delete_user_of_found hfind]
  | list skip limit => exact Nat.le_refl _
  | get uid => exact Nat.le_refl _
  | scrape => exact Nat.le_refl _

lemma nextId_le_runFrom (db : DB) (ops : List Op) : db.nextId ≤ (runFrom db ops).nextId := by
  induction ops generalizing db with
  | nil => exact Nat.le_refl _
  | cons op ops ih =>
    rw [runFrom_cons]
    exact Nat.le_trans (nextId_le_applyOp db op) (ih (applyOp db op))

lemma DBinv_init : DBinv DB.init := by
  refine ⟨idsBelow_init, ?_, ?_⟩ <;> simp [idsNodup, emailsNodup, DB.init]

lemma DBinv_applyOp {db : DB} (op : Op) (h : DBinv db) : DBinv (applyOp db op) := by
  obtain ⟨hb, hi, he⟩ := h
  cases op with
  | create name email now =>
    simp only [applyOp]
    cases hfind : findByEmail db email with
    | some v => rw [create_user_of_found hfind]; exact ⟨hb, hi, he⟩
    | none =>
      rw [create_user_of_fresh hfind]
      refine ⟨?_, ?_, ?_⟩
      · intro u hu
        rcases List.mem_append.mp hu with hl | hr
        · exact Nat.lt_succ_of_lt (hb u hl)
        · rcases List.mem_singleton.mp hr with rfl
          exact Nat.lt_succ_self _
      · show ((db.users ++ [(⟨db.nextId, name, email, now⟩ : UserRow)]).map
          (fun u => u.id)).Nodup
        rw [List.map_append, List.nodup_append]
        refine ⟨hi, by simp, ?_⟩
        intro a ha ha'
        simp only [List.map_cons, List.map_nil, List.mem_singleton] at ha'
        obtain ⟨v, hv, hva⟩ := List.mem_map.mp ha
        have := hb v hv
        omega
      · show ((db.users ++ [(⟨db.nextId, name, email, now⟩ : UserRow)]).map
          (fun u => u.email)).Nodup
        rw [List.map_append, List.nodup_append]
        refine ⟨he, by simp, ?_⟩
        intro a ha ha'
        simp only [List.map_cons, List.map_nil, List.mem_singleton] at ha'
        obtain ⟨v, hv, hva⟩ := List.mem_map.mp ha
        rw [findByEmail, List.find?_eq_none] at hfind
        exact hfind v hv (by simp [hva, ha'])
  | delete uid =>
    simp only [applyOp]
    cases hfind : findById db uid with
    | none => rw [delete_user_of_missing hfind]; exact ⟨hb, hi, he⟩
    | some v =>
      rw [delete_user_of_found hfind]
      refine ⟨?_, ?_, ?_⟩
      · intro u hu
        exact hb u (List.mem_of_mem_filter hu)
      · show ((db.users.filter (fun v => v.id != uid)).map (fun u => u.id)).Nodup
        have hi' : (db.users.map (fun u => u.id)).Nodup := hi
        exact ((List.filter_sublist db.users).map (fun u => u.id)).nodup hi'
      · show ((db.users.filter (fun v => v.id != uid)).map (fun u => u.email)).Nodup
        have he' : (db.users.map (fun u => u.email)).Nodup := he
        exact ((List.filter_sublist db.users).map (fun u => u.email)).nodup he'
  | list skip limit => exact ⟨hb, hi, he⟩
  | get uid => exact ⟨hb, hi, he⟩
  | scrape => exact ⟨hb, hi, he⟩

lemma DBinv_runFrom {db : DB} (h : DBinv db) (ops : List Op) : DBinv (runFrom db ops) := by
  induction ops generalizing db with
  | nil => exact h
  | cons op ops ih => exact ih (DBinv_applyOp op h)

lemma DBinv_run (ops : List Op) : DBinv (run ops) := DBinv_runFrom DBinv_init ops

lemma assignedIds_lt_runFrom (db : DB) (ops : List Op) :
    ∀ i ∈ assignedIds db ops, i < (runFrom db ops).nextId := by
  induction ops generalizing db with
  | nil => intro i hi; simp [assignedIds] at hi
  | cons op ops ih =>
    intro i hi
    rw [runFrom_cons]
    have hmono := nextId_le_runFrom (applyOp db op) ops
    cases op with
    | create name email now =>
      simp only [assignedIds] at hi
      rcases List.mem_append.mp hi with hh | ht
      · cases hfind : findByEmail db email with
        | some v => rw [create_user_of_found hfind] at hh; simp at hh
        | none =>
          rw [create_user_of_fresh hfind] at hh
          simp at hh
          have hstep : (applyOp db (Op.create name email now)).nextId = db.nextId + 1 := by
            simp only [applyOp]
            rw [create_user_of_fresh hfind]
          omega
      · exact Nat.lt_of_lt_of_le (ih (applyOp db (Op.create name email now)) i ht)
          (Nat.le_refl _)
    | list skip limit =>
      simp only [assignedIds, List.nil_append] at hi
      exact ih _ i hi
    | get uid =>
      simp only [assignedIds, List.nil_append] at hi
      exact ih _ i hi
    | delete uid =>
      simp only [assignedIds, List.nil_append] at hi
      exact ih _ i hi
    | scrape =>
      simp only [assignedIds, List.nil_append] at hi
      exact ih _ i hi

/-- C1: for every database state in which a user with email `e` already
exists, `POST /users` with that email fails with HTTP 400 and detail
"Email already registered", and returns the state unchanged: same row count,
same rows. -/
theorem create_user_duplicate_email (db : DB) (name email : String) (now : Nat)
    (h : ∃ u ∈ db.users, u.email = email) :
    create_user db name email now = (Except.error ⟨400, "Email already registered"⟩, db) := by
  obtain ⟨u, hu, he⟩ := h
  cases hfind : findByEmail db email with
  | none =>
    exfalso
    rw [findByEmail, List.find?_eq_none] at hfind
    exact hfind u hu (by simp [he])
  | some v => exact create_user_of_found hfind

/-- Witness for C1 at a concrete one-row state. -/
theorem create_user_duplicate_email_witness :
    create_user ⟨[⟨1, "Ann", "ann@x.com", 0⟩], 2⟩ "Bob" "ann@x.com" 9 =
      (Except.error ⟨400, "Email already registered"⟩, ⟨[⟨1, "Ann", "ann@x.com", 0⟩], 2⟩) :=
  create_user_duplicate_email ⟨[⟨1, "Ann", "ann@x.com", 0⟩], 2⟩ "Bob" "ann@x.com" 9
    ⟨⟨1, "Ann", "ann@x.com", 0⟩, by decide, rfl⟩

/-- C2: against any reachable state in which no user has email `e`,
`POST /users` succeeds and returns the created record, whose id is the
server-assigned sequence value and whose `created_at` is the server clock;
that id is strictly greater than the id of every user created earlier in the
trace (deleted or not). -/
theorem create_user_fresh_email (ops : List Op) (name email : String) (now : Nat)
    (h : ∀ u ∈ (run ops).users, u.email ≠ email) :
    (create_user (run ops) name email now).1 =
      Except.ok ⟨(run ops).nextId, name, email, now⟩
      ∧ ∀ i ∈ assignedIds DB.init ops, i < (run ops).nextId := by
  have hfind : findByEmail (run ops) email = none := by
    rw [findByEmail, List.find?_eq_none]
    intro u hu
    simp [h u hu]
  constructor
  · rw [create_user_of_fresh hfind]
  · exact fun i hi => assignedIds_lt_runFrom DB.init ops i hi

/-- Witness for C2: after creating then deleting Ann (id 1), creating Bob
with a fresh email yields id 2, greater than the previously assigned id 1. -/
theorem create_user_fresh_email_witness :
    (create_user (run [Op.create "Ann" "ann@x.com" 3, Op.delete 1]) "Bob" "bob@x.com" 7).1 =
      Except.ok ⟨2, "Bob", "bob@x.com", 7⟩
      ∧ ∀ i ∈ assignedIds DB.init [Op.create "Ann" "ann@x.com" 3, Op.delete 1], i < 2 := by
  have h := create_user_fresh_email [Op.create "Ann" "ann@x.com" 3, Op.delete 1]
    "Bob" "bob@x.com" 7 (by decide)
  exact h

/-- C3: deleting a missing id answers 404 and leaves the table unchanged;
deleting an existing id removes exactly that user's row, answers with the
confirmation message (not the deleted entity), and a subsequent get on the
same id answers 404. -/
theorem delete_user_contract (ops : List Op) (uid : Nat) :
    (findById (run ops) uid = none →
      delete_user (run ops) uid = (Except.error ⟨404, "User not found"⟩, run ops))
    ∧ (∀ u : UserRow, findById (run ops) uid = some u →
        (delete_user (run ops) uid).1 = Except.ok "User deleted successfully"
        ∧ (∃ l1 l2, (run ops).users = l1 ++ u :: l2
            ∧ (delete_user (run ops) uid).2.users = l1 ++ l2
            ∧ (delete_user (run ops) uid).2.nextId = (run ops).nextId)
        ∧ get_user (delete_user (run ops) uid).2 uid = Except.error ⟨404, "User not found"⟩) := by
  constructor
  · intro h
    exact delete_user_of_missing h
  · intro u h
    have hmem : u ∈ (run ops).users := List.mem_of_find?_eq_some h
    have hid : u.id = uid := by
      have := List.find?_some h
      simpa using this
    obtain ⟨hb, hi, he⟩ := DBinv_run ops
    obtain ⟨l1, l2, hdecomp⟩ := List.append_of_mem hmem
    have hnodup : ((run ops).users.map (fun v => v.id)).Nodup := hi
    rw [hdecomp, List.map_append, List.map_cons, List.nodup_append] at hnodup
    obtain ⟨hn1, hn2, hdisj⟩ := hnodup
    have hl1 : ∀ v ∈ l1, v.id ≠ uid := by
      intro v hv heq
      exact hdisj (List.mem_map_of_mem _ hv)
        (by rw [heq, ← hid]; exact List.mem_cons_self _ _)
    have hl2 : ∀ v ∈ l2, v.id ≠ uid := by
      intro v hv heq
      apply (List.nodup_cons.mp hn2).1
      rw [hid, ← heq]
      exact List.mem_map_of_mem _ hv
    have hfilter : (run ops).users.filter (fun v => v.id != uid) = l1 ++ l2 := by
      rw [hdecomp, List.filter_append, List.filter_cons]
      have hu : (u.id != uid) = false := by simp [hid]
      rw [hu]
      simp only [Bool.false_eq_true, if_false]
      rw [List.filter_eq_self.mpr, List.filter_eq_self.mpr]
      · intro a ha
        simpa using hl2 a ha
      · intro a ha
        simpa using hl1 a ha
    rw [delete_user_of_found h]
    refine ⟨rfl, ⟨l1, l2, hdecomp, hfilter, rfl⟩, ?_⟩
    have hnone : findById ⟨(run ops).users.filter (fun v => v.id != uid), (run ops).nextId⟩
        uid = none := by
      rw [findById, List.find?_eq_none]
      intro x hx
      have hx' := List.mem_filter.mp hx
      have : x.id ≠ uid := by simpa using hx'.2
      simp [this]
    rw [get_user, hnone]

/-- Witness for C3: both branches at concrete states. -/
theorem delete_user_contract_witness :
    delete_user (run [Op.create "Ann" "a@x.com" 0]) 7 =
      (Except.error ⟨404, "User not found"⟩, run [Op.create "Ann" "a@x.com" 0])
    ∧ (delete_user (run [Op.create "Ann" "a@x.com" 0]) 1).1 =
        Except.ok "User deleted successfully"
    ∧ get_user (delete_user (run [Op.create "Ann" "a@x.com" 0]) 1).2 1 =
        Except.error ⟨404, "User not found"⟩ := by
  refine ⟨(delete_user_contract [Op.create "Ann" "a@x.com" 0] 7).1 (by decide), ?_, ?_⟩
  · exact ((delete_user_contract [Op.create "Ann" "a@x.com" 0] 1).2
      ⟨1, "Ann", "a@x.com", 0⟩ (by decide)).1
  · exact ((delete_user_contract [Op.create "Ann" "a@x.com" 0] 1).2
      ⟨1, "Ann", "a@x.com", 0⟩ (by decide)).2.2

/-- C4: on any reachable state with at least two users, the pages
`limit=1, skip=0` and `limit=1, skip=1` are disjoint singletons, and omitting
the query parameters means `skip = 0` and `limit = 100`. -/
theorem get_users_pagination (ops : List Op) (h2 : 2 ≤ (run ops).users.length) :
    (get_users (run ops) 0 1).length = 1
    ∧ (get_users (run ops) 1 1).length = 1
    ∧ (∀ u ∈ get_users (run ops) 0 1, u ∉ get_users (run ops) 1 1)
    ∧ (∀ db : DB, get_users db = get_users db 0 100) := by
  obtain ⟨hb, hi, he⟩ := DBinv_run ops
  rcases husers : (run ops).users with _ | ⟨a, tl⟩
  · rw [husers] at h2
    simp at h2
  · rcases tl with _ | ⟨b, rest⟩
    · rw [husers] at h2
      simp at h2
    · have hids : ((a :: b :: rest).map (fun v => v.id)).Nodup := by
        rw [← husers]
        exact hi
      have hab : a.id ≠ b.id := by
        have h1 : a.id ∉ (b :: rest).map (fun v => v.id) :=
          (List.nodup_cons.mp (by simpa only [List.map_cons] using hids)).1
        intro heq
        apply h1
        rw [heq]
        exact List.mem_map_of_mem _ (List.mem_cons_self _ _)
      refine ⟨?_, ?_, ?_, fun db => rfl⟩
      · simp [get_users, husers]
      · simp [get_users, husers]
      · intro u hu hmem
        simp [get_users, husers] at hu hmem
        exact hab (congrArg (fun v => v.id) (hu.symm.trans hmem))

/-- Witness for C4 at a two-user state. -/
theorem get_users_pagination_witness :
    (get_users (run [Op.create "Ann" "a@x.com" 0, Op.create "Bob" "b@x.com" 1]) 0 1).length = 1
    ∧ (⟨1, "Ann", "a@x.com", 0⟩ : UserRow) ∉
        get_users (run [Op.create "Ann" "a@x.com" 0, Op.create "Bob" "b@x.com" 1]) 1 1 := by
  have h := get_users_pagination [Op.create "Ann" "a@x.com" 0, Op.create "Bob" "b@x.com" 1]
    (by decide)
  exact ⟨h.1, h.2.2.1 ⟨1, "Ann", "a@x.com", 0⟩ (by decide)⟩

/-- C5: in every state reachable by the service's operations, distinct rows
have distinct emails; and the id of a user deleted at any point of a trace is
never handed out again to a user created later in the trace. -/
theorem users_table_invariants :
    (∀ ops : List Op, ∀ u ∈ (run ops).users, ∀ v ∈ (run ops).users,
        u.email = v.email → u = v)
    ∧ (∀ (pre : List Op) (uid : Nat) (u : UserRow), findById (run pre) uid = some u →
        ∀ (mid : List Op) (name email : String) (now : Nat) (r : UserRow) (db' : DB),
          create_user (runFrom (applyOp (run pre) (Op.delete uid)) mid) name email now =
            (Except.ok r, db') → r.id ≠ u.id) := by
  constructor
  · intro ops u hu v hv heq
    obtain ⟨hb, hi, he⟩ := DBinv_run ops
    exact List.inj_on_of_nodup_map he hu hv heq
  · intro pre uid u hfind mid name email now r db' hcreate
    have hmem : u ∈ (run pre).users := List.mem_of_find?_eq_some hfind
    obtain ⟨hb, hi2, he2⟩ := DBinv_run pre
    have hu_lt : u.id < (run pre).nextId := hb u hmem
    have hdel : (applyOp (run pre) (Op.delete uid)).nextId = (run pre).nextId := by
      simp only [applyOp]
      cases hf : findById (run pre) uid with
      | none => rw [delete_user_of_missing hf]
      | some v => rw [delete_user_of_found hf]
    have hmono := nextId_le_runFrom (applyOp (run pre) (Op.delete uid)) mid
    have hr : r.id = (runFrom (applyOp (run pre) (Op.delete uid)) mid).nextId := by
      cases hf : findByEmail (runFrom (applyOp (run pre) (Op.delete uid)) mid) email with
      | some v =>
        rw [create_user_of_found hf] at hcreate
        simp at hcreate
      | none =>
        rw [create_user_of_fresh hf] at hcreate
        have hfst := congrArg Prod.fst hcreate
        have : (⟨(runFrom (applyOp (run pre) (Op.delete uid)) mid).nextId,
            name, email, now⟩ : UserRow) = r := by
          simpa using hfst
        rw [← this]
    omega

/-- Witness for C5: after creating Ann (id 1) and deleting her, a later
create receives id 2 ≠ 1; and in the resulting one-row table equal emails
force equal rows. -/
theorem users_table_invariants_witness :
    ((⟨2, "Bob", "b@x.com", 5⟩ : UserRow).id ≠ (⟨1, "Ann", "a@x.com", 0⟩ : UserRow).id)
    ∧ ((⟨1, "Ann", "a@x.com", 0⟩ : UserRow) = ⟨1, "Ann", "a@x.com", 0⟩) := by
  constructor
  · exact users_table_invariants.2 [Op.create "Ann" "a@x.com" 0] 1
      ⟨1, "Ann", "a@x.com", 0⟩ (by decide) [] "Bob" "b@x.com" 5
      ⟨2, "Bob", "b@x.com", 5⟩ ⟨[⟨2, "Bob", "b@x.com", 5⟩], 3⟩ rfl
  · exact users_table_invariants.1 [Op.create "Ann" "a@x.com" 0]
      ⟨1, "Ann", "a@x.com", 0⟩ (by decide) ⟨1, "Ann", "a@x.com", 0⟩ (by decide) rfl

/-- C6: every `GET /metrics` call sets the active-users gauge to exactly the
number of persisted users (an observable side effect on the registry), the
count depends only on the database state, and the response body is the text
exposition of the updated registry. -/
theorem metrics_active_users (db : DB) (m : MetricsState) :
    (metrics db m).2.active_users_gauge = (db.users.length : Int)
    ∧ (metrics db m).1 = generate_latest (metrics db m).2
    ∧ ∀ m' : MetricsState,
        (metrics db m').2.active_users_gauge = (metrics db m).2.active_users_gauge :=
  ⟨rfl, rfl, fun _ => rfl⟩

/-- C10: every `GET /metrics` call sets the database-connections gauge to the
constant 1, whatever the database state and the previous registry contents. -/
theorem metrics_database_connections (db : DB) (m : MetricsState) :
    (metrics db m).2.database_connections_gauge = 1 := rfl

/-- C9: `GET /products` answers the same three hardcoded items on every
database state, in particular after any trace of operations. -/
theorem get_products_fixed :
    (∀ db : DB, get_products db =
      [⟨1, "Product A", 2999⟩, ⟨2, "Product B", 4999⟩, ⟨3, "Product C", 1999⟩])
    ∧ ∀ ops : List Op, get_products (run ops) = get_products DB.init :=
  ⟨fun _ => rfl, fun _ => rfl⟩

/-- C8: when no `DATABASE_URL` is provided and `POSTGRES_PASSWORD` is unset,
module import aborts the process with the descriptive `ValueError` message
before the server can accept any request. -/
theorem startup_requires_password (env : String → Option String)
    (hurl : env "DATABASE_URL" = none) (hpw : env "POSTGRES_PASSWORD" = none) :
    startup env = StartupResult.failedExit
      "POSTGRES_PASSWORD environment variable is required" := by
  rw [startup, resolveDatabaseUrl, hurl, buildUrlFromParts, hpw]

/-- Witness for C8 at the empty environment. -/
theorem startup_requires_password_witness :
    startup (fun _ => none) = StartupResult.failedExit
      "POSTGRES_PASSWORD environment variable is required" :=
  startup_requires_password (fun _ => none) rfl rfl

/-! ### Occurrence analysis for the redaction proof -/

lemma append_start_cases {α : Type} {s a b : List α} (h : s <+: a ++ b) :
    s <+: a ∨ ∃ s2, s = a ++ s2 ∧ s2 <+: b := by
  rcases List.prefix_or_prefix_of_prefix h (List.prefix_append a b) with h1 | h2
  · exact Or.inl h1
  · obtain ⟨s2, hs2⟩ := h2
    refine Or.inr ⟨s2, hs2.symm, ?_⟩
    obtain ⟨r, hr⟩ := h
    refine ⟨r, ?_⟩
    have : a ++ (s2 ++ r) = a ++ b := by
      rw [← List.append_assoc, hs2, hr]
    exact List.append_cancel_left this

lemma append_occurrence_cases {α : Type} (s a b : List α) (h : s <:+: a ++ b) :
    s <:+: a ∨ s <:+: b
      ∨ ∃ s1 s2, s = s1 ++ s2 ∧ s1 ≠ [] ∧ s2 ≠ [] ∧ s1 <:+ a ∧ s2 <+: b := by
  induction a with
  | nil => exact Or.inr (Or.inl (by simpa using h))
  | cons c a' ih =>
    have h' : s <:+: c :: (a' ++ b) := by simpa using h
    rcases List.infix_cons_iff.mp h' with hpre | hinf
    · rcases append_start_cases (a := c :: a') (b := b) (by simpa using hpre) with h1 | h2
      · exact Or.inl h1.isInfix
      · obtain ⟨s2, hs2, hs2p⟩ := h2
        rcases eq_or_ne s2 [] with rfl | hne
        · exact Or.inl (by rw [hs2, List.append_nil])
        · exact Or.inr (Or.inr ⟨c :: a', s2, hs2, List.cons_ne_nil c a', hne,
            List.suffix_refl _, hs2p⟩)
    · rcases ih hinf with h1 | h2 | ⟨s1, s2, hsp, hn1, hn2, hsuf, hpre2⟩
      · exact Or.inl (List.infix_cons h1)
      · exact Or.inr (Or.inl h2)
      · exact Or.inr (Or.inr ⟨s1, s2, hsp, hn1, hn2, hsuf.trans (List.suffix_cons c a'),
          hpre2⟩)

lemma replaceGo_nil (s t : List Char) (n : Nat) : replaceGo s t n [] = [] := by
  cases n <;> rfl

lemma replaceGo_skip (s t : List Char) : ∀ (n : Nat) (y : List Char),
    replaceGo s t n y = replaceGo s t 0 (y.drop n) := by
  intro n
  induction n with
  | zero => intro y; rfl
  | succ n ih =>
    intro y
    cases y with
    | nil => rw [replaceGo_nil, List.drop_nil, replaceGo_nil]
    | cons c cs =>
      rw [List.drop_succ_cons, ← ih cs]
      rfl

lemma replaceGo_cons_neg {s : List Char} (t : List Char) {c : Char} {cs : List Char}
    (h : ¬ s <+: (c :: cs)) : replaceGo s t 0 (c :: cs) = c :: replaceGo s t 0 cs := by
  rw [replaceGo, if_neg h]

lemma replaceGo_head {s : List Char} (t : List Char) (hs : s ≠ []) (v : List Char) :
    replaceGo s t 0 (s ++ v) = t ++ replaceGo s t 0 v := by
  obtain ⟨c, s', rfl⟩ := List.exists_cons_of_ne_nil hs
  show replaceGo (c :: s') t 0 (c :: (s' ++ v)) = t ++ replaceGo (c :: s') t 0 v
  rw [replaceGo, if_pos (by exact List.prefix_append (c :: s') v)]
  rw [replaceGo_skip]
  simp [List.drop_left]

lemma replaceGo_no_occ {s t : List Char} {x : List Char} (h : ¬ s <:+: x) :
    replaceGo s t 0 x = x := by
  induction x with
  | nil => rfl
  | cons c cs ih =>
    have hp : ¬ s <+: (c :: cs) := fun hp => h hp.isInfix
    rw [replaceGo_cons_neg t hp, ih (fun hi => h (List.infix_cons hi))]

lemma replaceGo_keep {s : List Char} (t : List Char) : ∀ (k y : List Char),
    (∀ j, j < k.length → ¬ s <+: (k ++ y).drop j) →
    replaceGo s t 0 (k ++ y) = k ++ replaceGo s t 0 y := by
  intro k
  induction k with
  | nil => intro y _; rfl
  | cons c k' ih =>
    intro y h
    have h0 : ¬ s <+: c :: (k' ++ y) := by
      have := h 0 (by simp)
      simpa using this
    show replaceGo s t 0 (c :: (k' ++ y)) = c :: (k' ++ replaceGo s t 0 y)
    rw [replaceGo_cons_neg t h0, ih y ?_]
    intro j hj
    have := h (j + 1) (by simp only [List.length_cons]; omega)
    simpa using this

lemma mask_within_colon {s : List Char} (h : s <:+: maskChars) (hstar : '*' ∉ s) :
    s = [] ∨ s = [':'] := by
  have hall : ∀ b ∈ maskChars, b = '*' ∨ b = ':' := by decide
  have hsub : ∀ a ∈ s, a = ':' := by
    intro a ha
    rcases hall a (h.sublist.subset ha) with h' | h'
    · exact absurd (h' ▸ ha) hstar
    · exact h'
  have hcount : s.count ':' = s.length :=
    List.count_eq_length.mpr (fun b hb => (hsub b hb).symm)
  have hle : s.count ':' ≤ maskChars.count ':' := h.sublist.count_le ':'
  have hone : maskChars.count ':' = 1 := by decide
  match s, hsub with
  | [], _ => exact Or.inl rfl
  | [a], hsub => exact Or.inr (by rw [hsub a (List.mem_singleton.mpr rfl)])
  | a :: b :: s', _ =>
    exfalso
    rw [hone] at hle
    rw [hcount] at hle
    simp at hle

lemma mask_suffix_star {s1 : List Char} (h : s1 <:+ maskChars) (hne : s1 ≠ []) :
    '*' ∈ s1 := by
  have h' : s1.reverse <+: maskChars.reverse := List.reverse_prefix.mpr h
  have hm : maskChars.reverse = maskChars := by decide
  rw [hm] at h'
  have hne' : s1.reverse ≠ [] := by simpa using hne
  obtain ⟨c, w, hcw⟩ := List.exists_cons_of_ne_nil hne'
  rw [hcw] at h'
  obtain ⟨r, hr⟩ := h'
  have hc : c = '*' := by
    have := congrArg (fun l => l.head?) hr
    simpa [maskChars] using this
  have : '*' ∈ s1.reverse := by
    rw [hcw, hc]
    exact List.mem_cons_self _ _
  exact List.mem_reverse.mp this

lemma mask_start_star {s2 R : List Char} (hne : s2 ≠ []) (h : s2 <+: maskChars ++ R) :
    '*' ∈ s2 := by
  obtain ⟨c, w, hcw⟩ := List.exists_cons_of_ne_nil hne
  rw [hcw] at h
  obtain ⟨r, hr⟩ := h
  have hc : c = '*' := by
    have := congrArg (fun l => l.head?) hr
    simpa [maskChars] using this
  rw [hcw, hc]
  exact List.mem_cons_self _ _

lemma exists_first_occ {s x : List Char} (h : s <:+: x) :
    ∃ k v, x = k ++ (s ++ v) ∧ ∀ j, j < k.length → ¬ s <+: x.drop j := by
  have hex : ∃ j, s <+: x.drop j := by
    obtain ⟨u, w, huw⟩ := h
    refine ⟨u.length, ?_⟩
    rw [← huw, List.append_assoc, List.drop_left]
    exact List.prefix_append s w
  have hj0 : s <+: x.drop (Nat.find hex) := Nat.find_spec hex
  have hmin : ∀ j, j < Nat.find hex → ¬ s <+: x.drop j := fun j hj => Nat.find_min hex hj
  obtain ⟨v0, hv0⟩ := hj0
  refine ⟨x.take (Nat.find hex), v0, ?_, ?_⟩
  · rw [hv0]
    exact (List.take_append_drop _ x).symm
  · intro j hj
    refine hmin j ?_
    rw [List.length_take] at hj
    omega

lemma replaceGo_not_containing {s : List Char} (hs : s ≠ []) (hstar : '*' ∉ s)
    (hcolon : s ≠ [':']) : ∀ x, ¬ s <:+: replaceGo s maskChars 0 x := by
  have H : ∀ n x, x.length ≤ n → ¬ s <:+: replaceGo s maskChars 0 x := by
    intro n
    induction n with
    | zero =>
      intro x hx
      have hx0 : x = [] := List.eq_nil_of_length_eq_zero (Nat.le_zero.mp hx)
      subst hx0
      rw [replaceGo_nil]
      intro habs
      exact hs (List.sublist_nil.mp habs.sublist)
    | succ n ih =>
      intro x hx
      by_cases hocc : s <:+: x
      · obtain ⟨k, v, hxeq, hNS⟩ := exists_first_occ hocc
        subst hxeq
        rw [replaceGo_keep maskChars k (s ++ v) hNS, replaceGo_head maskChars hs v]
        intro habs
        have hslen : 0 < s.length := List.length_pos.mpr hs
        have hvlen : v.length ≤ n := by
          simp only [List.length_append] at hx
          omega
        have hR := ih v hvlen
        rcases append_occurrence_cases s k (maskChars ++ replaceGo s maskChars 0 v)
          habs with h1 | h2 | ⟨s1, s2, hsplit, hn1, hn2, hsuf, hpre⟩
        · obtain ⟨u, w, huw⟩ := h1
          have hjlt : u.length < k.length := by
            have := congrArg List.length huw
            simp only [List.length_append] at this
            omega
          refine hNS u.length hjlt ?_
          have hform : k ++ (s ++ v) = u ++ (s ++ (w ++ (s ++ v))) := by
            rw [← huw]
            simp [List.append_assoc]
          rw [hform, List.drop_left]
          exact List.prefix_append s _
        · rcases append_occurrence_cases s maskChars (replaceGo s maskChars 0 v) h2 with
            h3 | h4 | ⟨s1, s2, hsplit, hn1, hn2, hsuf, hpre⟩
          · rcases mask_within_colon h3 hstar with h5 | h5
            · exact hs h5
            · exact hcolon h5
          · exact hR h4
          · refine hstar ?_
            rw [hsplit]
            exact List.mem_append_left s2 (mask_suffix_star hsuf hn1)
        · refine hstar ?_
          rw [hsplit]
          exact List.mem_append_right s1 (mask_start_star hn2 hpre)
      · rw [replaceGo_no_occ hocc]
        exact hocc
  intro x
  exact H x.length x (Nat.le_refl _)

/-- C7 counterexample: the connection string `postgresql://**:***@db:5432/app`
is well-formed, its credential (user:password) portion is `**:***`, the
handler computes exactly that segment and replaces it — yet the resulting
`database_url` field still contains the credential portion as a substring,
because the credential coincides with part of the replacement mask. -/
theorem health_redaction_counterexample :
    credSegment ("postgresql://**:***@db:5432/app".toList) = some ("**:***".toList)
    ∧ redactedDatabaseUrl ("postgresql://**:***@db:5432/app".toList) =
        some ("postgresql://***:***@db:5432/app".toList)
    ∧ ("**:***".toList <:+: "postgresql://***:***@db:5432/app".toList) := by
  refine ⟨by decide, by decide, by decide⟩

/-- C7 (amended): whenever the handler extracts a credential segment that is
nonempty, contains no `*`, and is not the bare `:` — i.e. is not itself a
fragment of the redaction mask `***:***` — the `database_url` field of the
health response does not contain that segment, nor any string containing it
(in particular not the full user:password portion). -/
theorem health_redaction_amended (url e r : List Char)
    (hcred : credSegment url = some e) (hne : e ≠ []) (hstar : '*' ∉ e)
    (hcolon : e ≠ [':']) (hred : redactedDatabaseUrl url = some r) :
    ¬ e <:+: r ∧ ∀ c : List Char, e <:+: c → ¬ c <:+: r := by
  have hat : '@' ∈ url := by
    by_contra hno
    rw [credSegment, if_neg hno] at hcred
    exact Option.noConfusion hcred
  rw [credSegment, if_pos hat] at hcred
  rw [redactedDatabaseUrl, if_pos hat, hcred] at hred
  have hr : r = pyReplace e maskChars url := (Option.some.inj hred).symm
  rw [hr, pyReplace, if_neg hne]
  constructor
  · exact replaceGo_not_containing hne hstar hcolon url
  · intro c hec hcr
    exact replaceGo_not_containing hne hstar hcolon url (hec.trans hcr)

/-- Witness for the amended C7 at an ordinary connection string. -/
theorem health_redaction_amended_witness :
    ¬ ("user:pass".toList <:+: "postgresql://***:***@db:5432/app".toList) := by
  have h := health_redaction_amended ("postgresql://user:pass@db:5432/app".toList)
    ("user:pass".toList) ("postgresql://***:***@db:5432/app".toList)
    (by decide) (by decide) (by decide) (by decide) (by decide)
  exact h.1
